import Mathlib

/-!
Chat container: message-list reconciliation.

A shallow embedding of `packages/client/src/modules/chat/containers/Chat.native.jsx`:
the three snapshot updaters `AddMessage`, `DeleteMessage`, `EditMessage`, the
subscription `updateQuery` dispatcher, the optimistic `deleteMessage` mutation
and the `formatMessages` mapping done in `render`.

JavaScript values are modelled by `JSVal`.  Numbers are the integers together
with `NaN`, the one value that `===` does not relate to itself; objects are
represented by their heap address, which is all that `===` looks at.
-/

namespace Chat

/-! ## JavaScript values -/

/-- A JavaScript value.  An object (a record literal, a `Date`) is a reference. -/
inductive JSVal where
  | undefined
  | null
  | bool (b : Bool)
  | num (n : Int)
  | nan
  | str (s : String)
  | ref (addr : Nat)
  deriving DecidableEq, Repr

/-- The operator `a === b`: primitives compare by value, objects by reference,
and `NaN` is equal to nothing, itself included. -/
def strictEq : JSVal → JSVal → Bool
  | .undefined, .undefined => true
  | .null, .null => true
  | .bool a, .bool b => a == b
  | .num a, .num b => a == b
  | .str a, .str b => a == b
  | .ref a, .ref b => a == b
  | _, _ => false

/-- JavaScript truthiness (`ToBoolean`). -/
def truthy : JSVal → Bool
  | .undefined => false
  | .null => false
  | .bool b => b
  | .num n => n != 0
  | .nan => false
  | .str s => s != ""
  | .ref _ => true

/-- The operator `a || b`. -/
def jsOr (a b : JSVal) : JSVal := if truthy a then a else b

/-- A plain object: its own properties, in insertion order. -/
abbrev JSObject := List (String × JSVal)

/-- Property read `o.k`; a missing property reads as `undefined`. -/
def JSObject.get (o : JSObject) (k : String) : JSVal :=
  (o.lookup k).getD .undefined

/-- A message record as it travels through the cache (`node`, `message`, `x`). -/
abbrev Message := JSObject

/-- The property `message.id`. -/
def Message.id (m : Message) : JSVal := JSObject.get m "id"

/-! ## Array primitives -/

/-- Loop of `Array.prototype.findIndex`, scanning from position `i`. -/
def findIndexFrom {α : Type} (p : α → Bool) : List α → Nat → Int
  | [], _ => -1
  | x :: xs, i => if p x then (i : Int) else findIndexFrom p xs (i + 1)

/-- The method `xs.findIndex(p)`: first position satisfying `p`, or `-1`. -/
def findIndex {α : Type} (p : α → Bool) (xs : List α) : Int :=
  findIndexFrom p xs 0

/-- The method `xs.some(p)`. -/
def some {α : Type} (p : α → Bool) (xs : List α) : Bool := xs.any p

/-- The method `xs.splice(start, deleteCount, ...items)`, returning the array afterwards. -/
def splice {α : Type} (xs : List α) (start : Int) (deleteCount : Nat) (items : List α) : List α :=
  let len : Int := xs.length
  let actualStart : Nat := if start < 0 then (max (len + start) 0).toNat else (min start len).toNat
  let actualDeleteCount : Nat := min deleteCount (xs.length - actualStart)
  xs.take actualStart ++ items ++ xs.drop (actualStart + actualDeleteCount)

/-! ## Snapshots and `immutability-helper` -/

/-- The cached query result `prev`: the `messages` array and its other properties. -/
structure Snapshot where
  messages : List Message
  rest : JSObject
  deriving DecidableEq, Repr

/-- The commands of `immutability-helper` that the container applies to `messages`. -/
inductive Command where
  | set (value : List Message)
  | splice (calls : List (Int × Nat × List Message))

/-- Effect of one command on an array: `$set` replaces it, `$splice` runs each call in turn. -/
def Command.apply : Command → List Message → List Message
  | .set value, _ => value
  | .splice calls, xs => calls.foldl (fun acc c => Chat.splice acc c.1 c.2.1 c.2.2) xs

/-- The call `update(prev, { messages: cmd })`: only `messages` changes. -/
def update (prev : Snapshot) (cmd : Command) : Snapshot :=
  { prev with messages := cmd.apply prev.messages }

/-! ## The three updaters -/

/-- Source lines 16-27. -/
def AddMessage (prev : Snapshot) (node : Message) : Snapshot :=
  if Chat.some (fun message => strictEq node.id message.id) prev.messages then
    prev
  else
    update prev (.set (node :: prev.messages))

/-- Source lines 29-42. -/
def DeleteMessage (prev : Snapshot) (id : JSVal) : Snapshot :=
  let index := findIndex (fun x => strictEq (Message.id x) id) prev.messages
  if index < 0 then
    prev
  else
    update prev (.splice [(index, 1, [])])

/-- Source lines 44-57. -/
def EditMessage (prev : Snapshot) (node : Message) : Snapshot :=
  let index := findIndex (fun x => strictEq node.id (Message.id x)) prev.messages
  if index < 0 then
    prev
  else
    update prev (.splice [(index, 1, [node])])

/-! ## Subscription dispatch -/

/-- The `updateQuery` callback of `subscribeToMessages` (source lines 100-120). -/
def updateQuery (prev : Snapshot) (mutation : JSVal) (node : Message) : Snapshot :=
  if strictEq mutation (.str "CREATED") then
    AddMessage prev node
  else if strictEq mutation (.str "DELETED") then
    DeleteMessage prev node.id
  else if strictEq mutation (.str "UPDATED") then
    EditMessage prev node
  else
    prev

/-- One delivered subscription event: the discriminator and the payload. -/
structure Event where
  mutation : JSVal
  node : Message

/-- Feeding the events to `updateQuery` in delivery order. -/
def applyEvents (prev : Snapshot) (events : List Event) : Snapshot :=
  events.foldl (fun s e => updateQuery s e.mutation e.node) prev

/-! ## Read side: `formatMessages` in `render` -/

/-- The `user` part of a display record. -/
structure GiftedUser where
  _id : JSVal
  name : JSVal
  deriving DecidableEq, Repr

/-- A display record handed to the chat widget. -/
structure GiftedMessage where
  _id : JSVal
  text : JSVal
  createdAt : JSVal
  user : GiftedUser
  deriving DecidableEq, Repr

/-- The constant `anonymous` of `render`. -/
def anonymous : JSVal := .str "Anonymous"

/-- The `formatMessages` array of `render` (source lines 197-206); `none` is a
`messages` prop that is `undefined`, for which the destructuring default `[]` applies. -/
def formatMessages (messages : Option (List Message)) : List GiftedMessage :=
  (messages.getD []).map fun m =>
    { _id := JSObject.get m "id"
      text := JSObject.get m "text"
      createdAt := JSObject.get m "createdAt"
      user := { _id := JSObject.get m "userId", name := jsOr (JSObject.get m "username") anonymous } }

/-! ## Optimistic delete -/

/-- The heap of allocated objects; an address is a position in it. -/
abbrev Heap := List JSObject

/-- Evaluation of an object literal: a new object at an address not used so far. -/
def Heap.alloc (h : Heap) (o : JSObject) : Heap × JSVal :=
  (h ++ [o], .ref h.length)

/-- The record `{ id, __typename }` inside the delete response. -/
structure DeletePayload where
  id : JSVal
  typename : String
  deriving DecidableEq, Repr

/-- The record `{ __typename, deleteMessage }`, the `data` of a delete mutation result. -/
structure DeleteData where
  typename : String
  deleteMessage : DeletePayload
  deriving DecidableEq, Repr

/-- The argument that `deleteMessage` passes to `mutate`. -/
structure DeleteMutation where
  mutateVariables : JSVal
  optimisticResponse : DeleteData
  updateMessages : Snapshot → DeleteData → Snapshot

/-- The prop `deleteMessage` (source lines 271-294).  The second argument of the
`messages` handler is `mutationResult.data`. -/
def deleteMessage (id : JSVal) : DeleteMutation :=
  { mutateVariables := id
    optimisticResponse :=
      { typename := "Mutation", deleteMessage := { id := id, typename := "Message" } }
    updateMessages := fun prev data => DeleteMessage prev data.deleteMessage.id }

/-- Case 2 of the action sheet in `onLongPress` (source line 175):
`deleteMessage({ id: currentMessage._id })`. -/
def onLongPressDelete (h : Heap) (currentMessageId : JSVal) : Heap × DeleteMutation :=
  let r := h.alloc [("id", currentMessageId)]
  (r.1, deleteMessage r.2)

/-- The snapshot shown after the optimistic response of a long-press delete has
been run through the `messages` handler. -/
def optimisticDelete (h : Heap) (prev : Snapshot) (currentMessageId : JSVal) : Snapshot :=
  let m := (onLongPressDelete h currentMessageId).2
  m.updateMessages prev m.optimisticResponse

/-- Every object reference held as a message id of `prev` is allocated in `h`. -/
def Snapshot.IdsIn (h : Heap) (prev : Snapshot) : Prop :=
  ∀ m ∈ prev.messages, ∀ a, Message.id m = .ref a → a < h.length

/-- No two entries of the list share an id. -/
def UniqueIds (l : List Message) : Prop :=
  l.Pairwise fun a b => strictEq a.id b.id = false

/-! ## Sample data -/

/-- The message `{ id: 1, text: "a" }`. -/
def msgA : Message := [("id", .num 1), ("text", .str "a")]

/-- The message `{ id: 2, text: "b" }`. -/
def msgB : Message := [("id", .num 2), ("text", .str "b")]

/-- The message `{ id: 1, text: "a-edited" }`. -/
def msgA2 : Message := [("id", .num 1), ("text", .str "a-edited")]

/-- A message whose id is `NaN`. -/
def msgN : Message := [("id", .nan), ("text", .str "n")]

/-- A message whose author has a name. -/
def msgNamed : Message :=
  [("id", .num 4), ("text", .str "d"), ("userId", .num 8), ("username", .str "ann"),
   ("createdAt", .str "2018-07-02")]

/-- A message whose `username` property is the empty string. -/
def msgBlank : Message :=
  [("id", .num 3), ("text", .str "c"), ("userId", .num 7), ("username", .str ""),
   ("createdAt", .str "2018-07-01")]

/-! ## Auxiliary facts about the primitives -/

theorem eq_of_strictEq {a b : JSVal} (h : strictEq a b = true) : a = b := by
  cases a <;> cases b <;> simp_all [strictEq]

theorem strictEq_self_of_ne_nan {a : JSVal} (h : a ≠ JSVal.nan) : strictEq a a = true := by
  cases a <;> simp_all [strictEq]

theorem ne_nan_of_strictEq {a b : JSVal} (h : strictEq a b = true) : a ≠ JSVal.nan := by
  cases a <;> cases b <;> simp_all [strictEq]

theorem strictEq_self_of_strictEq {a b : JSVal} (h : strictEq a b = true) :
    strictEq a a = true :=
  strictEq_self_of_ne_nan (ne_nan_of_strictEq h)

theorem strictEq_comm (a b : JSVal) : strictEq a b = strictEq b a := by
  cases a <;> cases b <;> simp [strictEq, eq_comm]

theorem strictEq_false_of_ne {a b : JSVal} (h : a ≠ b) : strictEq a b = false := by
  cases hs : strictEq a b with
  | false => rfl
  | true => exact absurd (eq_of_strictEq hs) h

theorem findIndexFrom_eq {α : Type} (p : α → Bool) (xs : List α) (i : Nat) :
    findIndexFrom p xs i = if xs.any p then ((i + xs.findIdx p : Nat) : Int) else -1 := by
  induction xs generalizing i with
  | nil => simp [findIndexFrom]
  | cons x xs ih =>
    cases hx : p x with
    | true => simp [findIndexFrom, hx, List.findIdx_cons]
    | false =>
      have e : i + 1 + xs.findIdx p = i + (xs.findIdx p + 1) := by omega
      simp [findIndexFrom, hx, List.findIdx_cons, ih, e]

theorem findIndex_eq {α : Type} (p : α → Bool) (xs : List α) :
    findIndex p xs = if xs.any p then (xs.findIdx p : Int) else -1 := by
  simp [findIndex, findIndexFrom_eq]

theorem findIndex_of_any {α : Type} {p : α → Bool} {xs : List α} (h : xs.any p = true) :
    findIndex p xs = (xs.findIdx p : Int) := by
  simp [findIndex_eq, h]

theorem findIndex_of_not_any {α : Type} {p : α → Bool} {xs : List α} (h : xs.any p = false) :
    findIndex p xs = -1 := by
  simp [findIndex_eq, h]

theorem findIdx_lt_of_any {α : Type} {p : α → Bool} {xs : List α} (h : xs.any p = true) :
    xs.findIdx p < xs.length := by
  rw [List.any_eq_true] at h
  exact List.findIdx_lt_length_of_exists h

theorem splice_one {α : Type} (xs : List α) (k : Nat) (hk : k < xs.length) (items : List α) :
    splice xs (k : Int) 1 items = xs.take k ++ items ++ xs.drop (k + 1) := by
  have h1 : ¬ ((k : Int) < 0) := by omega
  have h2 : (min (k : Int) (xs.length : Int)).toNat = k := by
    rw [min_eq_left (by omega)]; rfl
  have h3 : min 1 (xs.length - k) = 1 := by omega
  simp only [splice, h1, if_false, h2, h3]

theorem take_findIdx_drop_eq_eraseP {α : Type} (p : α → Bool) (xs : List α) :
    xs.take (xs.findIdx p) ++ xs.drop (xs.findIdx p + 1) = xs.eraseP p := by
  induction xs with
  | nil => simp
  | cons x xs ih =>
    cases hx : p x with
    | true => simp [List.findIdx_cons, hx]
    | false => simp [List.findIdx_cons, hx, ih]

/-- The snapshot that `DeleteMessage` returns, in closed form. -/
theorem DeleteMessage_eq (prev : Snapshot) (id : JSVal) :
    DeleteMessage prev id =
      { prev with messages := prev.messages.eraseP (fun x => strictEq (Message.id x) id) } := by
  unfold DeleteMessage
  cases h : prev.messages.any (fun x => strictEq (Message.id x) id) with
  | false =>
    have hn : prev.messages.eraseP (fun x => strictEq (Message.id x) id) = prev.messages := by
      apply List.eraseP_of_forall_not
      intro a ha hp
      rw [List.any_eq_false] at h
      exact h a ha hp
    simp [findIndex_of_not_any h, hn]
  | true =>
    have hlt := findIdx_lt_of_any h
    have h0 : ¬ ((prev.messages.findIdx (fun x => strictEq (Message.id x) id) : Int) < 0) := by omega
    simp only [findIndex_of_any h, h0, if_false, update, Command.apply, List.foldl_cons,
      List.foldl_nil, splice_one _ _ hlt, List.append_nil, take_findIdx_drop_eq_eraseP]

/-- The snapshot that `EditMessage` returns when the id is found, in closed form. -/
theorem EditMessage_eq_set (prev : Snapshot) (node : Message)
    (h : prev.messages.any (fun x => strictEq node.id (Message.id x)) = true) :
    EditMessage prev node =
      { prev with messages :=
          prev.messages.set (prev.messages.findIdx (fun x => strictEq node.id (Message.id x))) node } := by
  unfold EditMessage
  have hlt := findIdx_lt_of_any h
  have h0 : ¬ ((prev.messages.findIdx (fun x => strictEq node.id (Message.id x)) : Int) < 0) := by
    omega
  simp only [findIndex_of_any h, h0, if_false, update, Command.apply, List.foldl_cons,
    List.foldl_nil, splice_one _ _ hlt, List.set_eq_take_append_cons_drop, hlt, if_true,
    List.append_assoc, List.singleton_append]

theorem EditMessage_of_absent (prev : Snapshot) (node : Message)
    (h : prev.messages.any (fun x => strictEq node.id (Message.id x)) = false) :
    EditMessage prev node = prev := by
  simp [EditMessage, findIndex_of_not_any h]

theorem AddMessage_of_absent (prev : Snapshot) (node : Message)
    (h : prev.messages.any (fun message => strictEq node.id message.id) = false) :
    AddMessage prev node = { prev with messages := node :: prev.messages } := by
  simp [AddMessage, Chat.some, h, update, Command.apply]

theorem AddMessage_of_present (prev : Snapshot) (node : Message)
    (h : prev.messages.any (fun message => strictEq node.id message.id) = true) :
    AddMessage prev node = prev := by
  simp [AddMessage, Chat.some, h]

theorem any_eq_false_of_forall {p : Message → Bool} {l : List Message}
    (h : ∀ m ∈ l, p m = false) : l.any p = false := by
  rw [List.any_eq_false]
  intro m hm
  simp [h m hm]

theorem any_eq_true_of_exists {p : Message → Bool} {l : List Message}
    (h : ∃ m ∈ l, p m = true) : l.any p = true := by
  rw [List.any_eq_true]
  exact h

theorem UniqueIds.getElem_ne {l : List Message} (hu : UniqueIds l) {i j : Nat}
    (hi : i < l.length) (hj : j < l.length) (hij : i < j) :
    strictEq (Message.id l[i]) (Message.id l[j]) = false := by
  unfold UniqueIds at hu
  rw [List.pairwise_iff_getElem] at hu
  exact hu i j hi hj hij

/-- In a list with unique ids, erasing the first entry of id `X` removes every entry of id `X`. -/
theorem eraseP_eq_filter_of_unique (l : List Message) (X : JSVal) (hu : UniqueIds l) :
    l.eraseP (fun x => strictEq (Message.id x) X) =
      l.filter (fun m => !strictEq (Message.id m) X) := by
  induction l with
  | nil => rfl
  | cons a t ih =>
    unfold UniqueIds at hu
    rw [List.pairwise_cons] at hu
    cases ha : strictEq (Message.id a) X with
    | true =>
      have hX : Message.id a = X := eq_of_strictEq ha
      have ht : t.filter (fun m => !strictEq (Message.id m) X) = t := by
        rw [List.filter_eq_self]
        intro b hb
        have := hu.1 b hb
        rw [hX, strictEq_comm] at this
        simp [this]
      simp [List.eraseP_cons, ha, ht]
    | false =>
      simp [List.eraseP_cons, ha, ih hu.2]

/-- In a list with unique ids, the first position whose id is `M.id` is the only one. -/
theorem findIdx_eq_of_unique (l : List Message) (M : Message) (k : Nat) (hu : UniqueIds l)
    (hk : k < l.length) (hE : strictEq (Message.id l[k]) (Message.id M) = true) :
    l.findIdx (fun x => strictEq (Message.id M) (Message.id x)) = k := by
  rw [List.findIdx_eq hk]
  have hid : Message.id l[k] = Message.id M := eq_of_strictEq hE
  refine ⟨by rw [strictEq_comm]; exact hE, ?_⟩
  intro j hj
  have := hu.getElem_ne (Nat.lt_trans hj hk) hk hj
  rw [hid, strictEq_comm] at this
  exact this

/-! ## The three updaters: effect on a well-formed list -/

/-- C1: when no entry of the snapshot carries the id of `M`, `AddMessage` yields
the list `M` followed by the old list: one longer, `M` at position 0, and the
old entry `i` at position `i + 1`; the other properties of the snapshot stay. -/
theorem AddMessage_fresh_prepends (prev : Snapshot) (M : Message)
    (h : ∀ m ∈ prev.messages, strictEq (Message.id M) (Message.id m) = false) :
    (AddMessage prev M).messages = M :: prev.messages ∧
    (AddMessage prev M).messages.length = prev.messages.length + 1 ∧
    (AddMessage prev M).messages[0]? = Option.some M ∧
    (∀ i, i < prev.messages.length →
      (AddMessage prev M).messages[i + 1]? = prev.messages[i]?) ∧
    (AddMessage prev M).rest = prev.rest := by
  rw [AddMessage_of_absent prev M (any_eq_false_of_forall h)]
  simp

theorem AddMessage_fresh_prepends_witness :
    (∀ m ∈ (Snapshot.mk [msgB] []).messages, strictEq (Message.id msgA) (Message.id m) = false) ∧
    (AddMessage (Snapshot.mk [msgB] []) msgA).messages = [msgA, msgB] :=
  ⟨by decide, (AddMessage_fresh_prepends (Snapshot.mk [msgB] []) msgA (by decide)).1⟩

/-- C2: on a list with pairwise distinct ids that holds an entry of id `X`,
`DeleteMessage` yields a list one shorter, with no entry of id `X`, that is the
old list with the entries of id `X` filtered out (so all others keep their order). -/
theorem DeleteMessage_present_removes (prev : Snapshot) (X : JSVal)
    (hu : UniqueIds prev.messages)
    (hx : ∃ m ∈ prev.messages, strictEq (Message.id m) X = true) :
    (DeleteMessage prev X).messages.length = prev.messages.length - 1 ∧
    (DeleteMessage prev X).messages.length + 1 = prev.messages.length ∧
    (∀ m ∈ (DeleteMessage prev X).messages, strictEq (Message.id m) X = false) ∧
    (DeleteMessage prev X).messages =
      prev.messages.filter (fun m => !strictEq (Message.id m) X) ∧
    (DeleteMessage prev X).rest = prev.rest := by
  obtain ⟨m, hm, hp⟩ := hx
  have hlen : (prev.messages.eraseP (fun x => strictEq (Message.id x) X)).length
      = prev.messages.length - 1 := List.length_eraseP_of_mem hm hp
  have hpos : 0 < prev.messages.length := List.length_pos_of_mem hm
  rw [DeleteMessage_eq]
  refine ⟨hlen, ?_, ?_, ?_, rfl⟩
  · show (prev.messages.eraseP _).length + 1 = _
    omega
  · intro a ha
    change a ∈ prev.messages.eraseP _ at ha
    rw [eraseP_eq_filter_of_unique _ _ hu, List.mem_filter] at ha
    simpa using ha.2
  · exact eraseP_eq_filter_of_unique _ _ hu

theorem DeleteMessage_present_removes_witness :
    UniqueIds (Snapshot.mk [msgA, msgB] []).messages ∧
    (∃ m ∈ (Snapshot.mk [msgA, msgB] []).messages, strictEq (Message.id m) (.num 1) = true) ∧
    (DeleteMessage (Snapshot.mk [msgA, msgB] []) (.num 1)).messages = [msgB] := by
  have hu : UniqueIds (Snapshot.mk [msgA, msgB] []).messages := by
    unfold UniqueIds; decide
  have hx : ∃ m ∈ (Snapshot.mk [msgA, msgB] []).messages,
      strictEq (Message.id m) (.num 1) = true := by decide
  exact ⟨hu, hx, (DeleteMessage_present_removes _ _ hu hx).2.2.2.1.trans (by decide)⟩

/-- C3: on a list with pairwise distinct ids whose entry at position `k` has the
id of `M`, `EditMessage` yields a list of the same length whose entry `k` is
exactly `M` and whose every other entry is the old one. -/
theorem EditMessage_present_replaces (prev : Snapshot) (M : Message) (k : Nat)
    (hu : UniqueIds prev.messages) (hk : k < prev.messages.length)
    (hE : strictEq (Message.id prev.messages[k]) (Message.id M) = true) :
    (EditMessage prev M).messages.length = prev.messages.length ∧
    (EditMessage prev M).messages[k]? = Option.some M ∧
    (∀ j, j ≠ k → (EditMessage prev M).messages[j]? = prev.messages[j]?) ∧
    (EditMessage prev M).rest = prev.rest := by
  have hany : prev.messages.any (fun x => strictEq (Message.id M) (Message.id x)) = true := by
    apply any_eq_true_of_exists
    exact ⟨prev.messages[k], List.getElem_mem hk, by rw [strictEq_comm]; exact hE⟩
  rw [EditMessage_eq_set prev M hany, findIdx_eq_of_unique _ M k hu hk hE]
  refine ⟨by simp, by simp [hk], ?_, rfl⟩
  intro j hj
  simp [List.getElem?_set_ne (Ne.symm hj)]

theorem EditMessage_present_replaces_witness :
    UniqueIds (Snapshot.mk [msgB, msgA] []).messages ∧
    (EditMessage (Snapshot.mk [msgB, msgA] []) msgA2).messages[1]? = Option.some msgA2 := by
  have hu : UniqueIds (Snapshot.mk [msgB, msgA] []).messages := by
    unfold UniqueIds; decide
  exact ⟨hu, (EditMessage_present_replaces (Snapshot.mk [msgB, msgA] []) msgA2 1 hu
    (by decide) (by decide)).2.1⟩

/-- C4: the three updaters are total and fall back to their input: `AddMessage`
returns `prev` when some entry has the id of `M`, `DeleteMessage` returns `prev`
when no entry has id `X`, `EditMessage` returns `prev` when no entry has the id of `M`. -/
theorem updaters_fall_back_to_prev (prev : Snapshot) (M : Message) (X : JSVal) :
    ((∃ m ∈ prev.messages, strictEq (Message.id M) (Message.id m) = true) →
      AddMessage prev M = prev) ∧
    ((∀ m ∈ prev.messages, strictEq (Message.id m) X = false) →
      DeleteMessage prev X = prev) ∧
    ((∀ m ∈ prev.messages, strictEq (Message.id M) (Message.id m) = false) →
      EditMessage prev M = prev) := by
  refine ⟨fun h => AddMessage_of_present prev M (any_eq_true_of_exists h), fun h => ?_,
    fun h => EditMessage_of_absent prev M (any_eq_false_of_forall h)⟩
  rw [DeleteMessage_eq, List.eraseP_of_forall_not]
  intro a ha hp
  simp [h a ha] at hp

theorem updaters_fall_back_to_prev_witness :
    AddMessage (Snapshot.mk [msgA] []) msgA2 = Snapshot.mk [msgA] [] ∧
    DeleteMessage (Snapshot.mk [msgA] []) (.num 99) = Snapshot.mk [msgA] [] ∧
    EditMessage (Snapshot.mk [msgA] []) msgB = Snapshot.mk [msgA] [] :=
  ⟨(updaters_fall_back_to_prev (Snapshot.mk [msgA] []) msgA2 (.num 99)).1 (by decide),
   (updaters_fall_back_to_prev (Snapshot.mk [msgA] []) msgA2 (.num 99)).2.1 (by decide),
   (updaters_fall_back_to_prev (Snapshot.mk [msgA] []) msgB (.num 99)).2.2 (by decide)⟩

/-! ## Idempotence and the uniqueness invariant -/

theorem set_same_of_getElem {α : Type} (l : List α) (k : Nat) (hk : k < l.length) (a : α)
    (h : l[k] = a) : l.set k a = l := by
  apply List.ext_getElem?
  intro j
  rw [List.getElem?_set]
  split
  · next hj =>
    subst hj
    rw [← h, List.getElem?_eq_getElem hk]
  · rfl

theorem set_findIdx_unique_ids (l : List Message) (M : Message)
    (h : l.any (fun x => strictEq (Message.id M) (Message.id x)) = true) :
    (l.set (l.findIdx (fun x => strictEq (Message.id M) (Message.id x))) M).map Message.id
      = l.map Message.id := by
  have hlt := findIdx_lt_of_any h
  have hp : strictEq (Message.id M)
      (Message.id l[l.findIdx (fun x => strictEq (Message.id M) (Message.id x))]) = true :=
    List.findIdx_getElem (p := fun x => strictEq (Message.id M) (Message.id x))
  have hid := eq_of_strictEq hp
  rw [List.map_set]
  apply set_same_of_getElem _ _ (by simpa using hlt)
  rw [List.getElem_map]
  exact hid.symm

theorem findIdx_set_findIdx (l : List Message) (M : Message)
    (h : l.any (fun x => strictEq (Message.id M) (Message.id x)) = true) :
    (l.set (l.findIdx (fun x => strictEq (Message.id M) (Message.id x))) M).findIdx
        (fun x => strictEq (Message.id M) (Message.id x))
      = l.findIdx (fun x => strictEq (Message.id M) (Message.id x)) := by
  have hlt := findIdx_lt_of_any h
  have hlt2 : l.findIdx (fun x => strictEq (Message.id M) (Message.id x))
      < (l.set (l.findIdx (fun x => strictEq (Message.id M) (Message.id x))) M).length := by
    simpa using hlt
  have hself : strictEq (Message.id M) (Message.id M) = true := by
    rw [List.any_eq_true] at h
    obtain ⟨x, _, hx⟩ := h
    exact strictEq_self_of_strictEq hx
  rw [List.findIdx_eq hlt2]
  refine ⟨by simp [hself], ?_⟩
  intro j hj
  have hne : l.findIdx (fun x => strictEq (Message.id M) (Message.id x)) ≠ j := by omega
  rw [List.getElem_set_ne hne]
  have := List.not_of_lt_findIdx hj
  simpa using this

/-- C5, as the code has it: on a snapshot whose ids are pairwise distinct,
applying the same delete or the same update twice in succession gives the same
snapshot as applying it once, and so does applying the same create twice
provided the id of `M` is not `NaN`. -/
theorem updaters_idempotent (prev : Snapshot) (M : Message) (X : JSVal)
    (hu : UniqueIds prev.messages) :
    (Message.id M ≠ JSVal.nan → AddMessage (AddMessage prev M) M = AddMessage prev M) ∧
    DeleteMessage (DeleteMessage prev X) X = DeleteMessage prev X ∧
    EditMessage (EditMessage prev M) M = EditMessage prev M := by
  refine ⟨?_, ?_, ?_⟩
  · intro hn
    cases h : prev.messages.any (fun message => strictEq (Message.id M) (Message.id message)) with
    | true => rw [AddMessage_of_present prev M h, AddMessage_of_present prev M h]
    | false =>
      rw [AddMessage_of_absent prev M h]
      apply AddMessage_of_present
      simp [strictEq_self_of_ne_nan hn]
  · rw [DeleteMessage_eq prev X, DeleteMessage_eq]
    have hno : ∀ a, a ∈ prev.messages.eraseP (fun x => strictEq (Message.id x) X) →
        ¬ (fun x => strictEq (Message.id x) X) a = true := by
      intro a ha
      rw [eraseP_eq_filter_of_unique _ _ hu, List.mem_filter] at ha
      simpa using ha.2
    simp only [List.eraseP_of_forall_not hno]
  · cases h : prev.messages.any (fun x => strictEq (Message.id M) (Message.id x)) with
    | false => rw [EditMessage_of_absent prev M h, EditMessage_of_absent prev M h]
    | true =>
      have hlt := findIdx_lt_of_any h
      have hself : strictEq (Message.id M) (Message.id M) = true := by
        have h' := h
        rw [List.any_eq_true] at h'
        obtain ⟨x, _, hx⟩ := h'
        exact strictEq_self_of_strictEq hx
      rw [EditMessage_eq_set prev M h]
      have h2 : (prev.messages.set
          (prev.messages.findIdx (fun x => strictEq (Message.id M) (Message.id x))) M).any
          (fun x => strictEq (Message.id M) (Message.id x)) = true := by
        rw [List.any_eq_true]
        exact ⟨M, List.mem_set _ _ hlt M, hself⟩
      rw [EditMessage_eq_set _ M h2]
      simp only [findIdx_set_findIdx _ M h, List.set_set]

theorem updaters_idempotent_witness :
    UniqueIds (Snapshot.mk [msgB, msgA] []).messages ∧
    AddMessage (AddMessage (Snapshot.mk [msgB, msgA] []) msgNamed) msgNamed
      = Snapshot.mk [msgNamed, msgB, msgA] [] ∧
    DeleteMessage (DeleteMessage (Snapshot.mk [msgB, msgA] []) (.num 2)) (.num 2)
      = Snapshot.mk [msgA] [] := by
  have hu : UniqueIds (Snapshot.mk [msgB, msgA] []).messages := by
    unfold UniqueIds; decide
  exact ⟨hu,
    ((updaters_idempotent (Snapshot.mk [msgB, msgA] []) msgNamed (.num 2) hu).1
      (by decide)).trans (by decide),
    (updaters_idempotent (Snapshot.mk [msgB, msgA] []) msgNamed (.num 2) hu).2.1.trans
      (by decide)⟩

/-- C5 as stated fails: the ids of the list are pairwise distinct, yet a second
create of the message whose id is `NaN` prepends it once more. -/
theorem AddMessage_twice_nan_id :
    UniqueIds (Snapshot.mk [msgB] []).messages ∧
    AddMessage (Snapshot.mk [msgB] []) msgN = Snapshot.mk [msgN, msgB] [] ∧
    AddMessage (AddMessage (Snapshot.mk [msgB] []) msgN) msgN
      = Snapshot.mk [msgN, msgN, msgB] [] ∧
    AddMessage (AddMessage (Snapshot.mk [msgB] []) msgN) msgN
      ≠ AddMessage (Snapshot.mk [msgB] []) msgN := by
  refine ⟨?_, ?_, ?_, ?_⟩
  · unfold UniqueIds; decide
  · decide
  · decide
  · decide

theorem UniqueIds_iff_map (l : List Message) :
    UniqueIds l ↔ (l.map Message.id).Pairwise (fun a b => strictEq a b = false) := by
  unfold UniqueIds
  rw [List.pairwise_map]

theorem AddMessage_unique (prev : Snapshot) (M : Message) (hu : UniqueIds prev.messages) :
    UniqueIds (AddMessage prev M).messages := by
  cases h : prev.messages.any (fun message => strictEq (Message.id M) (Message.id message)) with
  | true => rw [AddMessage_of_present prev M h]; exact hu
  | false =>
    rw [AddMessage_of_absent prev M h]
    unfold UniqueIds
    rw [List.pairwise_cons]
    refine ⟨?_, hu⟩
    intro b hb
    rw [List.any_eq_false] at h
    simpa using h b hb

theorem DeleteMessage_unique (prev : Snapshot) (X : JSVal) (hu : UniqueIds prev.messages) :
    UniqueIds (DeleteMessage prev X).messages := by
  rw [DeleteMessage_eq]
  exact List.Pairwise.sublist (List.eraseP_sublist _) hu

theorem EditMessage_unique (prev : Snapshot) (M : Message) (hu : UniqueIds prev.messages) :
    UniqueIds (EditMessage prev M).messages := by
  cases h : prev.messages.any (fun x => strictEq (Message.id M) (Message.id x)) with
  | false => rw [EditMessage_of_absent prev M h]; exact hu
  | true =>
    rw [EditMessage_eq_set prev M h, UniqueIds_iff_map]
    show List.Pairwise _ (List.map Message.id (prev.messages.set _ M))
    rw [set_findIdx_unique_ids _ M h, ← UniqueIds_iff_map]
    exact hu

theorem updateQuery_unique (prev : Snapshot) (mutation : JSVal) (node : Message)
    (hu : UniqueIds prev.messages) : UniqueIds (updateQuery prev mutation node).messages := by
  unfold updateQuery
  split
  · exact AddMessage_unique prev node hu
  · split
    · exact DeleteMessage_unique prev _ hu
    · split
      · exact EditMessage_unique prev node hu
      · exact hu

theorem applyEvents_unique (events : List Event) (prev : Snapshot)
    (hu : UniqueIds prev.messages) : UniqueIds (applyEvents prev events).messages := by
  induction events generalizing prev with
  | nil => exact hu
  | cons e es ih =>
    exact ih (updateQuery prev e.mutation e.node) (updateQuery_unique prev _ _ hu)

/-- C6: if no two entries of the snapshot share an id, then no two entries share
an id after `AddMessage`, after `DeleteMessage`, after `EditMessage`, nor after
any finite sequence of events dispatched through `updateQuery`. -/
theorem unique_ids_invariant (prev : Snapshot) (hu : UniqueIds prev.messages) :
    (∀ M, UniqueIds (AddMessage prev M).messages) ∧
    (∀ X, UniqueIds (DeleteMessage prev X).messages) ∧
    (∀ M, UniqueIds (EditMessage prev M).messages) ∧
    (∀ events, UniqueIds (applyEvents prev events).messages) :=
  ⟨fun M => AddMessage_unique prev M hu, fun X => DeleteMessage_unique prev X hu,
   fun M => EditMessage_unique prev M hu, fun events => applyEvents_unique events prev hu⟩

theorem unique_ids_invariant_witness :
    UniqueIds (Snapshot.mk [msgB] []).messages ∧
    UniqueIds (applyEvents (Snapshot.mk [msgB] [])
      [Event.mk (.str "CREATED") msgA, Event.mk (.str "CREATED") msgA,
       Event.mk (.str "UPDATED") msgA2, Event.mk (.str "DELETED") msgB]).messages := by
  have hu : UniqueIds (Snapshot.mk [msgB] []).messages := by
    unfold UniqueIds; decide
  exact ⟨hu, (unique_ids_invariant (Snapshot.mk [msgB] []) hu).2.2.2 _⟩

/-! ## Dispatch -/

/-- C7: `updateQuery` returns `AddMessage prev node` for the discriminator
CREATED, `EditMessage prev node` for UPDATED, `DeleteMessage prev node.id` for
DELETED, and `prev` itself for every other discriminator value. -/
theorem updateQuery_dispatch (prev : Snapshot) (mutation : JSVal) (node : Message) :
    (mutation = .str "CREATED" → updateQuery prev mutation node = AddMessage prev node) ∧
    (mutation = .str "UPDATED" → updateQuery prev mutation node = EditMessage prev node) ∧
    (mutation = .str "DELETED" →
      updateQuery prev mutation node = DeleteMessage prev (Message.id node)) ∧
    (mutation ≠ .str "CREATED" → mutation ≠ .str "UPDATED" → mutation ≠ .str "DELETED" →
      updateQuery prev mutation node = prev) := by
  refine ⟨?_, ?_, ?_, ?_⟩
  · rintro rfl
    simp [updateQuery, strictEq]
  · rintro rfl
    simp [updateQuery, strictEq]
  · rintro rfl
    simp [updateQuery, strictEq]
  · intro h1 h2 h3
    have e1 := strictEq_false_of_ne h1
    have e2 := strictEq_false_of_ne h2
    have e3 := strictEq_false_of_ne h3
    simp [updateQuery, e1, e2, e3]

theorem updateQuery_dispatch_witness :
    updateQuery (Snapshot.mk [msgA, msgB] []) (.str "DELETED") msgA2 = Snapshot.mk [msgB] [] ∧
    updateQuery (Snapshot.mk [msgA, msgB] []) (.str "RENAMED") msgA2
      = Snapshot.mk [msgA, msgB] [] :=
  ⟨((updateQuery_dispatch (Snapshot.mk [msgA, msgB] []) (.str "DELETED") msgA2).2.2.1 rfl).trans
     (by decide),
   (updateQuery_dispatch (Snapshot.mk [msgA, msgB] []) (.str "RENAMED") msgA2).2.2.2
     (by decide) (by decide) (by decide)⟩

/-! ## Create followed by delete -/

/-- C10, as the code has it: when no entry of the snapshot carries the id of
`M` and that id is not `NaN`, deleting that id right after `AddMessage` gives
back `prev` itself; when some entry does carry it, `AddMessage` changes nothing
and the delete removes an old entry, so the result is one entry short of `prev`. -/
theorem delete_undoes_fresh_add (prev : Snapshot) (M : Message) :
    ((∀ m ∈ prev.messages, strictEq (Message.id M) (Message.id m) = false) →
      Message.id M ≠ JSVal.nan →
      DeleteMessage (AddMessage prev M) (Message.id M) = prev) ∧
    ((∃ m ∈ prev.messages, strictEq (Message.id M) (Message.id m) = true) →
      DeleteMessage (AddMessage prev M) (Message.id M) = DeleteMessage prev (Message.id M) ∧
      (DeleteMessage (AddMessage prev M) (Message.id M)).messages.length + 1
        = prev.messages.length ∧
      DeleteMessage (AddMessage prev M) (Message.id M) ≠ prev) := by
  constructor
  · intro h hn
    rw [AddMessage_of_absent prev M (any_eq_false_of_forall h), DeleteMessage_eq]
    simp [strictEq_self_of_ne_nan hn]
  · intro h
    rw [AddMessage_of_present prev M (any_eq_true_of_exists h)]
    obtain ⟨m, hm, hp⟩ := h
    rw [strictEq_comm] at hp
    have hlen : (DeleteMessage prev (Message.id M)).messages.length + 1
        = prev.messages.length := by
      rw [DeleteMessage_eq]
      show (prev.messages.eraseP _).length + 1 = _
      rw [List.length_eraseP_of_mem hm hp]
      have := List.length_pos_of_mem hm
      omega
    refine ⟨rfl, hlen, ?_⟩
    intro heq
    rw [heq] at hlen
    omega

theorem delete_undoes_fresh_add_witness :
    DeleteMessage (AddMessage (Snapshot.mk [msgB] [("loading", .bool false)]) msgA) (.num 1)
      = Snapshot.mk [msgB] [("loading", .bool false)] ∧
    DeleteMessage (AddMessage (Snapshot.mk [msgA] []) msgA2) (.num 1) ≠ Snapshot.mk [msgA] [] :=
  ⟨(delete_undoes_fresh_add (Snapshot.mk [msgB] [("loading", .bool false)]) msgA).1
     (by decide) (by decide),
   ((delete_undoes_fresh_add (Snapshot.mk [msgA] []) msgA2).2 (by decide)).2.2⟩

/-- C10 as stated fails: no entry carries the id of the message whose id is
`NaN`, the create prepends it, and the delete by that id finds nothing, so the
result keeps the new entry and is not `prev`. -/
theorem delete_after_add_nan_id :
    (∀ m ∈ (Snapshot.mk [msgB] []).messages,
      strictEq (Message.id msgN) (Message.id m) = false) ∧
    DeleteMessage (AddMessage (Snapshot.mk [msgB] []) msgN) (Message.id msgN)
      = Snapshot.mk [msgN, msgB] [] ∧
    DeleteMessage (AddMessage (Snapshot.mk [msgB] []) msgN) (Message.id msgN)
      ≠ Snapshot.mk [msgB] [] := by
  decide

/-! ## Read side -/

/-- C8, as the code has it: `formatMessages` yields one display record per
message, in order, with `_id`, `text`, `createdAt` and `user._id` read from `id`,
`text`, `createdAt` and `userId`; `user.name` is `username` when that value is
truthy and the sentinel Anonymous when it is falsy, which covers a missing,
`null` or empty `username`.  A `messages` prop that is `undefined` gives `[]`. -/
theorem formatMessages_records (messages : List Message) :
    (formatMessages (Option.some messages)).length = messages.length ∧
    (∀ (i : Nat) (m : Message), messages[i]? = Option.some m →
      ∃ r : GiftedMessage, (formatMessages (Option.some messages))[i]? = Option.some r ∧
        r._id = JSObject.get m "id" ∧ r.text = JSObject.get m "text" ∧
        r.createdAt = JSObject.get m "createdAt" ∧ r.user._id = JSObject.get m "userId" ∧
        (truthy (JSObject.get m "username") = true → r.user.name = JSObject.get m "username") ∧
        (truthy (JSObject.get m "username") = false → r.user.name = JSVal.str "Anonymous") ∧
        (∀ s : String, s ≠ "" → List.lookup "username" m = Option.some (JSVal.str s) →
          r.user.name = JSVal.str s) ∧
        (List.lookup "username" m = Option.none → r.user.name = JSVal.str "Anonymous")) ∧
    formatMessages Option.none = [] := by
  refine ⟨by simp [formatMessages], ?_, rfl⟩
  intro i m hm
  simp only [formatMessages, Option.getD_some, List.getElem?_map, hm, Option.map_some']
  refine ⟨_, rfl, rfl, rfl, rfl, rfl, ?_, ?_, ?_, ?_⟩
  · intro ht
    simp [jsOr, ht]
  · intro ht
    simp [jsOr, ht, anonymous]
  · intro s hs hl
    simp [jsOr, JSObject.get, hl, truthy, hs]
  · intro hl
    simp [jsOr, JSObject.get, hl, truthy, anonymous]

theorem formatMessages_records_witness :
    ∃ r : GiftedMessage, (formatMessages (Option.some [msgNamed, msgBlank]))[1]? = Option.some r ∧
      r.user._id = JSVal.num 7 ∧ r.user.name = JSVal.str "Anonymous" := by
  obtain ⟨r, hr, _, _, _, hu, _, hf, _, _⟩ :=
    (formatMessages_records [msgNamed, msgBlank]).2.1 1 msgBlank rfl
  exact ⟨r, hr, hu.trans (by decide), hf (by decide)⟩

/-- C8 as stated fails: the `username` of `msgBlank` is present (it is the empty
string), yet the display name is the sentinel and not that `username`. -/
theorem formatMessages_blank_username :
    List.lookup "username" msgBlank = Option.some (.str "") ∧
    (formatMessages (Option.some [msgBlank])).map (fun r => r.user.name)
      = [.str "Anonymous"] ∧
    (formatMessages (Option.some [msgBlank])).map (fun r => r.user.name)
      ≠ [JSObject.get msgBlank "username"] := by
  decide

/-! ## Optimistic delete -/

theorem DeleteMessage_of_absent (prev : Snapshot) (X : JSVal)
    (h : ∀ m ∈ prev.messages, strictEq (Message.id m) X = false) :
    DeleteMessage prev X = prev := by
  rw [DeleteMessage_eq, List.eraseP_of_forall_not]
  intro a ha hp
  simp [h a ha] at hp

/-- C9: the id that the optimistic response of a long-press delete carries is the
whole argument object, not the id `X` inside it, so the `messages` handler finds
nothing to delete: it returns `prev`, and an entry of id `X` is still shown. -/
theorem optimisticDelete_returns_prev (h : Heap) (prev : Snapshot) (X : JSVal)
    (hwf : prev.IdsIn h) :
    (onLongPressDelete h X).2.optimisticResponse.deleteMessage.id = .ref h.length ∧
    optimisticDelete h prev X = DeleteMessage prev (.ref h.length) ∧
    optimisticDelete h prev X = prev ∧
    ((∃ m ∈ prev.messages, strictEq (Message.id m) X = true) →
      ∃ m ∈ (optimisticDelete h prev X).messages, strictEq (Message.id m) X = true) := by
  have hret : optimisticDelete h prev X = prev := by
    show DeleteMessage prev (.ref h.length) = prev
    apply DeleteMessage_of_absent
    intro m hm
    apply strictEq_false_of_ne
    intro hid
    have := hwf m hm h.length hid
    omega
  refine ⟨rfl, rfl, hret, ?_⟩
  intro hx
  rw [hret]
  exact hx

theorem optimisticDelete_returns_prev_witness :
    Snapshot.IdsIn [] (Snapshot.mk [msgA, msgB] []) ∧
    optimisticDelete [] (Snapshot.mk [msgA, msgB] []) (.num 1) = Snapshot.mk [msgA, msgB] [] ∧
    DeleteMessage (Snapshot.mk [msgA, msgB] []) (.num 1) = Snapshot.mk [msgB] [] := by
  have hwf : Snapshot.IdsIn [] (Snapshot.mk [msgA, msgB] []) := by
    unfold Snapshot.IdsIn
    intro m hm a ha
    have hm2 : m = msgA ∨ m = msgB := by simpa using hm
    rcases hm2 with rfl | rfl <;> simp [msgA, msgB, Message.id, JSObject.get, List.lookup] at ha
  exact ⟨hwf, (optimisticDelete_returns_prev [] (Snapshot.mk [msgA, msgB] []) (.num 1) hwf).2.2.1,
    by decide⟩

/-! ## The scenarios of the specification -/

theorem spec_scenarios :
    (AddMessage (Snapshot.mk [msgB] []) msgA).messages = [msgA, msgB] ∧
    (DeleteMessage (Snapshot.mk [msgA, msgB] []) (.num 1)).messages = [msgB] ∧
    (EditMessage (Snapshot.mk [msgA] []) msgA2).messages = [msgA2] ∧
    (DeleteMessage (Snapshot.mk [msgA] []) (.num 99)).messages = [msgA] := by
  decide

end Chat
